import Mathlib

/-!
# Verification of the StylexWebpackPlugin (`src/index.js`)

A shallow embedding of the plugin's bookkeeping logic:

* JS objects keyed by strings (`this.stylexRules`, `this.fileToBundlesMap`,
  `bundleToRules`, ...) are modelled as insertion-ordered association lists
  `List (String × α)`, with reads/writes mirroring JS object semantics
  (unique keys, overwrite keeps position, fresh key appended at the end).
* External collaborators (babel, webpack's hash utilities, path templating,
  asset registration, `processStylexRules`) are oracle parameters: the
  embedding keeps exactly the data the plugin hands them and receives back.
* JS `null`/`undefined` is `Option.none`; string truthiness is `s ≠ ""`.
* `path.sep` is modelled as the posix separator `"/"`.
-/

/-- JS `obj[key]` read on a string-keyed object: the value of the (unique)
entry with that key, or `none` when the key is absent. -/
def jsGet {α : Type} : List (String × α) → String → Option α
  | [], _ => none
  | (k, v) :: rest, key => if k = key then some v else jsGet rest key

/-- JS `obj[key] = v`: overwrite in place (keeping the key's original
position), or append a fresh entry at the end. -/
def jsSet {α : Type} : List (String × α) → String → α → List (String × α)
  | [], key, v => [(key, v)]
  | (k, w) :: rest, key, v =>
      if k = key then (k, v) :: rest else (k, w) :: jsSet rest key v

/-- Does `needle` occur at the head of `hay`? (chars compared one by one). -/
def matchHere : List Char → List Char → Bool
  | [], _ => true
  | _ :: _, [] => false
  | a :: as, b :: bs => a = b && matchHere as bs

/-- Does `needle` occur anywhere in `hay`? -/
def matchSome (needle : List Char) : List Char → Bool
  | [] => needle.isEmpty
  | c :: rest => matchHere needle (c :: rest) || matchSome needle rest

/-- JS `hay.includes(needle)`: substring containment. -/
def jsIncludes (hay needle : String) : Bool :=
  matchSome needle.data hay.data

/-- JS `a || b` where `a` is a possibly-absent string: `a`'s value when it is
present and truthy (non-empty), else `b`. -/
def jsOrStr (a : Option String) (b : String) : String :=
  match a with
  | some s => if s = "" then b else s
  | none => b

/-- A webpack chunk as consulted by the `afterOptimizeChunks` handler
(line 82): only `name`, `id` (already converted by `?.toString()`) and
`renderedHash` are read; `none` models a JS `null`/`undefined` field. -/
structure Chunk where
  name : Option String
  id : Option String
  renderedHash : Option String
deriving DecidableEq

/-- A webpack module as consulted by the handler: only `module.resource`
(the absolute file path, possibly absent) is read. -/
structure WModule where
  resource : Option String
deriving DecidableEq

/-- Line 82: `chunk.name || chunk.id?.toString() || `chunk-${chunk.renderedHash}``.
Template-interpolating an undefined `renderedHash` yields the text
`"undefined"`, so the final alternative is always the non-empty string
`"chunk-..."`. -/
def chunkNameOf (c : Chunk) : String :=
  jsOrStr c.name
    (jsOrStr c.id
      ("chunk-" ++ (match c.renderedHash with | some h => h | none => "undefined")))

/-- The plugin's `fileToBundlesMap`: file path ↦ list of bundle (chunk)
identifiers, in insertion order. -/
abbrev FileToBundles := List (String × List String)

/-- Lines 90–96: ensure an entry exists for `fp` (created as `[]`), then push
the chunk name onto it unless it is already present. -/
def addBundleOnce : FileToBundles → String → String → FileToBundles
  | [], fp, b => [(fp, [b])]
  | (k, v) :: rest, fp, b =>
      if k = fp then (k, if b ∈ v then v else v ++ [b]) :: rest
      else (k, v) :: addBundleOnce rest fp b

/-- Line 87: `filePath.includes(path.sep + 'node_modules' + path.sep)`,
with `path.sep` modelled as `"/"`. -/
def isNodeModulePath (fp : String) : Bool :=
  jsIncludes fp "/node_modules/"

/-- Lines 84–99: the body of the per-module loop for one chunk. A module with
no (or an empty, hence falsy) `resource` is skipped; a dependency-directory
path is skipped; otherwise the chunk identifier is added to the file's bundle
list if not already present. -/
def trackModule (chunkName : String) (m : FileToBundles) (mod : WModule) :
    FileToBundles :=
  match mod.resource with
  | none => m
  | some fp =>
      if fp = "" then m
      else if isNodeModulePath fp then m
      else addBundleOnce m fp chunkName

/-- Lines 81–100: process one chunk. The guard on line 83
(`if (!chunkName) continue`) skips a chunk whose derived identifier is the
empty string. `chunkModules` embeds `compilation.chunkGraph.getChunkModules`. -/
def trackChunk (chunkModules : Chunk → List WModule) (m : FileToBundles)
    (c : Chunk) : FileToBundles :=
  if chunkNameOf c = "" then m
  else (chunkModules c).foldl (trackModule (chunkNameOf c)) m

/-- The plugin-instance state touched by the hooks: the two persistent maps. -/
structure PluginState where
  stylexRules : List (String × List String)
  fileToBundlesMap : FileToBundles
deriving DecidableEq

/-- Lines 20–22: class-field initialization at instance construction
(`stylexRules = {}`; the bundle map starts absent, modelled empty). -/
def initPluginState : PluginState :=
  { stylexRules := [], fileToBundlesMap := [] }

/-- Lines 77–103: the `afterOptimizeChunks` handler. Line 79 replaces
`this.fileToBundlesMap` with a fresh empty object before rebuilding it from
the chunks of the current invocation; `stylexRules` is untouched. -/
def applyAfterOptimizeChunks (s : PluginState)
    (chunkModules : Chunk → List WModule) (chunks : List Chunk) : PluginState :=
  { s with fileToBundlesMap := chunks.foldl (trackChunk chunkModules) [] }

/-- Lines 50–79: the effect on the plugin's persistent maps of the `make`
hook body that runs when a new compilation starts. The body only registers
the loader and the `finishModules`/`afterOptimizeChunks`/`processAssets`
hooks; it contains no write to `stylexRules` or `fileToBundlesMap` (the sole
write to `stylexRules` in the source is line 236, inside `transformCode`;
the bundle map is written only by the handlers themselves, later). -/
def startNewCompilation (s : PluginState) : PluginState := s

/-- The value returned by `transformCode` to the loader: rewritten code and
optional source map (an absent `map` field is `none`). -/
structure TransformResult where
  code : String
  map : Option String
deriving DecidableEq

/-- The relevant part of a babel `transformAsync` result: `code`, `map`, and
`metadata.stylex` (absent when the stylex plugin emitted no metadata). -/
structure BabelOut where
  code : String
  map : Option String
  stylexMeta : Option (List String)

/-- Lines 210–244: `transformCode`. `babel` is the external compiler
(`babel.transformAsync` with the stylex plugin configured) as an oracle from
the compiled source text, and `readFile` is the `fs.readFile(filename)`
oracle used in babelrc mode. Returns the loader result together with the
updated `stylexRules` map. -/
def transformCode (stylexImports : List String) (babelrc : Bool)
    (babel : String → BabelOut) (readFile : String)
    (stylexRules : List (String × List String))
    (inputCode filename : String) :
    TransformResult × List (String × List String) :=
  if stylexImports.any (fun importName => jsIncludes inputCode importName) then
    let originalSource := if babelrc then readFile else inputCode
    let out := babel originalSource
    let rules' :=
      match out.stylexMeta with
      | some meta =>
          if 0 < meta.length then jsSet stylexRules filename meta else stylexRules
      | none => stylexRules
    if !babelrc then ({ code := out.code, map := out.map }, rules')
    else ({ code := inputCode, map := none }, rules')
  else ({ code := inputCode, map := none }, stylexRules)

/-- Lines 119–122: append `rules` to the bundle's accumulating list, creating
the entry (at the end, per JS object semantics) when absent. -/
def addRulesToBundle :
    List (String × List String) → String → List String → List (String × List String)
  | [], b, rules => [(b, rules)]
  | (k, v) :: rest, b, rules =>
      if k = b then (k, v ++ rules) :: rest
      else (k, v) :: addRulesToBundle rest b rules

/-- Lines 113–124: the body of the per-file loop of `getBundleToStylexRules`:
look up the file's bundles (skip when the lookup yields `null`/`undefined`),
then append the file's rules to every such bundle's list. -/
def aggregateStep (f2b : FileToBundles)
    (acc : List (String × List String)) (p : String × List String) :
    List (String × List String) :=
  match jsGet f2b p.1 with
  | none => acc
  | some bundles => bundles.foldl (fun a b => addRulesToBundle a b p.2) acc

/-- Lines 112–124: the `bundleToRules` object built by iterating the
`stylexRules` entries in insertion order. -/
def bundleToRulesOf (stylexRules : List (String × List String))
    (f2b : FileToBundles) : List (String × List String) :=
  stylexRules.foldl (aggregateStep f2b) []

/-- Lines 105–136: `getBundleToStylexRules`. Returns `null` (`none`) when no
file has recorded rules; otherwise maps each bundle's accumulated rule list
through `stylexBabelPlugin.processStylexRules` (the oracle `process`) with
the `useCSSLayers` flag. -/
def getBundleToStylexRules (process : List String → Bool → String)
    (useCSSLayers : Bool) (stylexRules : List (String × List String))
    (f2b : FileToBundles) : Option (List (String × String)) :=
  if stylexRules.isEmpty then none
  else
    some ((bundleToRulesOf stylexRules f2b).map
      (fun p => (p.1, process p.2 useCSSLayers)))

/-- A file's bundle set as read by the aggregator (empty when absent). -/
def bundlesOf (f2b : FileToBundles) (fp : String) : List String :=
  (jsGet f2b fp).getD []

/-- The hash-related output options consulted by `getContentHash`
(lines 143–145). `hashDigestLength = none` models an undefined length, in
which case `slice(0, undefined)` keeps the full digest. -/
structure OutputOptions where
  hashFunction : String
  hashDigest : String
  hashDigestLength : Option Nat
  hashSalt : Option String
deriving DecidableEq

/-- Lines 142–157: `getContentHash`. The oracle `createHashDigest f updates d`
stands for webpack's `createHash(f)` hash object fed `updates` in order,
digested with encoding `d` and converted `toString`. A falsy (absent or
empty) salt is not fed to the hash (line 148); the digest is truncated with
`slice(0, hashDigestLength)`. -/
def getContentHash (createHashDigest : String → List String → String → String)
    (opts : OutputOptions) (source : String) : String :=
  let updates :=
    match opts.hashSalt with
    | some salt => if salt = "" then [source] else [salt, source]
    | none => [source]
  let fullContentHash := createHashDigest opts.hashFunction updates opts.hashDigest
  match opts.hashDigestLength with
  | some n => fullContentHash.take n
  | none => fullContentHash

/-- The characters of a path after its last separator `/` (the base name). -/
def afterLastSep (cs : List Char) : List Char :=
  cs.foldl (fun acc c => if c = '/' then [] else acc ++ [c]) []

/-- The index of the last occurrence of `x`, if any. -/
def lastIdxOf (x : Char) (cs : List Char) : Option Nat :=
  (cs.foldl
    (fun (p : Nat × Option Nat) c =>
      (p.1 + 1, if c = x then some p.1 else p.2))
    (0, none)).2

/-- `path.parse(s).name`: the base name of `s` with its final extension
removed; a dot at the very start of the base name (a dotfile) does not
begin an extension. -/
def parseName (s : String) : String :=
  let base := afterLastSep s.data
  match lastIdxOf '.' base with
  | none => String.mk base
  | some 0 => String.mk base
  | some i => String.mk (base.take i)

/-- The synthesized pseudo-chunk of lines 182–186 (`id`, `name`, `hash`). -/
structure PseudoChunk where
  id : String
  name : String
  hash : String
deriving DecidableEq

/-- The `data` descriptor of lines 179–187 handed to
`compilation.getPathWithInfo`. -/
structure AssetData where
  filename : String
  contentHash : String
  chunk : PseudoChunk
deriving DecidableEq

/-- Lines 178–187: the filename `${bundle}.stylex.css` and the pseudo-chunk
descriptor built from the bundle identifier and the computed content hash. -/
def mkAssetData (bundle contentHash : String) : AssetData :=
  let filename := bundle ++ ".stylex.css"
  { filename := filename
    contentHash := contentHash
    chunk := { id := filename, name := parseName filename, hash := contentHash } }

/-- The construction-time configuration relevant to filenames (lines 24–35):
`appendTo`, and the `filename` option whose default is
`appendTo == null ? "[name].stylex.css" : undefined`. -/
structure PluginConfig where
  appendTo : Option String
  filename : Option String
deriving DecidableEq

/-- Lines 24–35: the constructor's handling of `appendTo` and `filename`
(a JS default parameter applies only when the argument is undefined). -/
def mkPluginConfig (appendTo : Option String) (filenameArg : Option String) :
    PluginConfig :=
  { appendTo := appendTo
    filename :=
      match filenameArg with
      | some f => some f
      | none =>
          match appendTo with
          | none => some "[name].stylex.css"
          | some _ => none }

/-- Lines 169–190: for one bundle and its computed content hash, the
`(template, data)` pair handed to `compilation.getPathWithInfo` (line 190
passes `data.filename`, i.e. `${bundle}.stylex.css`, as the path template).
The plugin configuration `cfg` is in scope in the handler, but its
`filename`/`appendTo` fields are not consulted anywhere in it. -/
def emissionPathArgs (cfg : PluginConfig) (bundle contentHash : String) :
    String × AssetData :=
  (bundle ++ ".stylex.css", mkAssetData bundle contentHash)

/-- Modelled from the spec: the filename template the spec claims the emitted
asset's name is produced from — the plugin's configured filename template,
with the constructor's `[name].stylex.css` default when no custom template
or `appendTo` destination was configured. To be compared with the template
the source actually passes for path resolution (`emissionPathArgs`). -/
def specClaimedFilenameTemplate (cfg : PluginConfig) : Option String :=
  cfg.filename

/-- Lines 169–196: the per-bundle body of the emission loop. Hash
computation, path resolution and asset registration all call into webpack
and may throw; `emitOne` embeds that body as an oracle returning either the
emitted asset or the thrown exception. Processing stops at the first
exception; assets emitted for earlier bundles stay emitted. -/
def emitLoop {ε α : Type} (emitOne : String × String → Except ε α) :
    List (String × String) → List α × Option ε
  | [] => ([], none)
  | b :: rest =>
      match emitOne b with
      | .error e => ([], some e)
      | .ok a =>
          let r := emitLoop emitOne rest
          (a :: r.1, r.2)

/-- Lines 159–202: the `processAssets` handler. The whole pass is wrapped in
one `try`/`catch` whose handler pushes the caught exception onto
`compilation.errors`; when `getBundleToStylexRules` returned `null` nothing
is emitted. Returns the emitted assets together with the updated error
list. -/
def processAssetsHandler {ε α : Type}
    (bundleToStylexRules : Option (List (String × String)))
    (emitOne : String × String → Except ε α) (errors : List ε) :
    List α × List ε :=
  match bundleToStylexRules with
  | none => ([], errors)
  | some bs =>
      let r := emitLoop emitOne bs
      (r.1, errors ++ (match r.2 with | some e => [e] | none => []))

/-! ## Helper lemmas about the association-list operations -/

lemma jsGet_mem {α : Type} :
    ∀ (m : List (String × α)) (k : String) (v : α),
      jsGet m k = some v → (k, v) ∈ m := by
  intro m
  induction m with
  | nil => intro k v h; simp [jsGet] at h
  | cons p rest ih =>
      intro k v h
      obtain ⟨k', v'⟩ := p
      by_cases hk : k' = k
      · subst hk
        simp [jsGet] at h
        subst h
        exact List.mem_cons_self _ _
      · simp [jsGet, hk] at h
        exact List.mem_cons_of_mem _ (ih k v h)

lemma jsGet_addRulesToBundle (m : List (String × List String))
    (b : String) (rules : List String) (b' : String) :
    jsGet (addRulesToBundle m b rules) b' =
      if b' = b then some ((jsGet m b).getD [] ++ rules) else jsGet m b' := by
  induction m with
  | nil =>
      by_cases h : b' = b
      · simp [addRulesToBundle, jsGet, h]
      · simp [addRulesToBundle, jsGet, h, Ne.symm h]
  | cons p rest ih =>
      obtain ⟨k, v⟩ := p
      by_cases hk : k = b
      · subst hk
        by_cases h : b' = k
        · subst h
          simp [addRulesToBundle, jsGet]
        · simp [addRulesToBundle, jsGet, h, Ne.symm h]
      · by_cases h : b' = k
        · subst h
          simp [addRulesToBundle, jsGet, hk, Ne.symm hk]
        · simp [addRulesToBundle, jsGet, hk, Ne.symm h, ih]

lemma jsGet_addBundleOnce (m : FileToBundles) (fp b fp' : String) :
    jsGet (addBundleOnce m fp b) fp' =
      if fp' = fp then
        some (match jsGet m fp with
          | none => [b]
          | some v => if b ∈ v then v else v ++ [b])
      else jsGet m fp' := by
  induction m with
  | nil =>
      by_cases h : fp' = fp
      · simp [addBundleOnce, jsGet, h]
      · simp [addBundleOnce, jsGet, h, Ne.symm h]
  | cons p rest ih =>
      obtain ⟨k, v⟩ := p
      by_cases hk : k = fp
      · subst hk
        by_cases h : fp' = k
        · subst h
          simp [addBundleOnce, jsGet]
        · simp [addBundleOnce, jsGet, h, Ne.symm h]
      · by_cases h : fp' = k
        · subst h
          simp [addBundleOnce, jsGet, hk, Ne.symm hk]
        · simp [addBundleOnce, jsGet, hk, Ne.symm h, ih]

lemma mem_bundlesOf_addBundleOnce_self (m : FileToBundles) (fp b : String) :
    b ∈ (jsGet (addBundleOnce m fp b) fp).getD [] := by
  rw [jsGet_addBundleOnce]
  simp only [if_pos rfl]
  cases h : jsGet m fp with
  | none => simp
  | some v =>
      by_cases hb : b ∈ v
      · simp [hb]
      · simp [hb]

lemma mem_bundlesOf_addBundleOnce_mono (m : FileToBundles) (fp b fp' x : String)
    (h : x ∈ (jsGet m fp').getD []) :
    x ∈ (jsGet (addBundleOnce m fp b) fp').getD [] := by
  rw [jsGet_addBundleOnce]
  by_cases hfp : fp' = fp
  · subst hfp
    simp only [if_pos rfl]
    cases hm : jsGet m fp' with
    | none => rw [hm] at h; simp at h
    | some v =>
        rw [hm] at h
        simp only [Option.getD_some] at h
        by_cases hb : b ∈ v
        · simp [hb, h]
        · simp [hb, h]
  · simp [hfp, h]

lemma jsGet_foldl_addRulesToBundle (rules : List String) :
    ∀ (bundles : List String), bundles.Nodup →
      ∀ (acc : List (String × List String)) (b' : String),
        jsGet (bundles.foldl (fun a b => addRulesToBundle a b rules) acc) b' =
          if b' ∈ bundles then some ((jsGet acc b').getD [] ++ rules)
          else jsGet acc b' := by
  intro bundles
  induction bundles with
  | nil => intro _ acc b'; simp
  | cons b0 rest ih =>
      intro hnd acc b'
      rw [List.nodup_cons] at hnd
      obtain ⟨hb0, hrest⟩ := hnd
      rw [List.foldl_cons, ih hrest]
      by_cases hmem : b' ∈ rest
      · have hne : b' ≠ b0 := fun h => hb0 (h ▸ hmem)
        rw [jsGet_addRulesToBundle]
        simp [hmem, hne]
      · by_cases heq : b' = b0
        · subst heq
          rw [jsGet_addRulesToBundle]
          simp [hmem]
        · rw [jsGet_addRulesToBundle]
          simp [hmem, heq]

lemma nodup_of_jsGet_f2b (f2b : FileToBundles)
    (hN : ∀ p ∈ f2b, (p.2 : List String).Nodup) (fp : String)
    (v : List String) (h : jsGet f2b fp = some v) : v.Nodup :=
  hN (fp, v) (jsGet_mem f2b fp v h)

lemma jsGet_foldl_aggregateStep (f2b : FileToBundles)
    (hN : ∀ p ∈ f2b, (p.2 : List String).Nodup) :
    ∀ (sr : List (String × List String)) (acc : List (String × List String))
      (b : String),
      jsGet (sr.foldl (aggregateStep f2b) acc) b =
        (if (sr.filter (fun p => decide (b ∈ bundlesOf f2b p.1))).isEmpty then
          jsGet acc b
        else
          some ((jsGet acc b).getD [] ++
            (sr.filter (fun p => decide (b ∈ bundlesOf f2b p.1))).flatMap
              Prod.snd)) := by
  intro sr
  induction sr with
  | nil => intro acc b; simp
  | cons p rest ih =>
      intro acc b
      rw [List.foldl_cons]
      rcases hbp : jsGet f2b p.1 with _ | bundles
      · have hstep : aggregateStep f2b acc p = acc := by
          simp [aggregateStep, hbp]
        have hfc : (p :: rest).filter (fun q => decide (b ∈ bundlesOf f2b q.1)) =
            rest.filter (fun q => decide (b ∈ bundlesOf f2b q.1)) := by
          rw [List.filter_cons]
          simp [bundlesOf, hbp]
        rw [hstep, ih acc b, hfc]
      · have hstep : aggregateStep f2b acc p =
            bundles.foldl (fun a b => addRulesToBundle a b p.2) acc := by
          simp [aggregateStep, hbp]
        have hnd : bundles.Nodup := nodup_of_jsGet_f2b f2b hN p.1 bundles hbp
        have hbov : bundlesOf f2b p.1 = bundles := by simp [bundlesOf, hbp]
        by_cases hmem : b ∈ bundles
        · have hfc : (p :: rest).filter (fun q => decide (b ∈ bundlesOf f2b q.1)) =
              p :: rest.filter (fun q => decide (b ∈ bundlesOf f2b q.1)) := by
            rw [List.filter_cons]
            simp [hbov, hmem]
          have hacc : jsGet (bundles.foldl (fun a b => addRulesToBundle a b p.2) acc) b
              = some ((jsGet acc b).getD [] ++ p.2) := by
            rw [jsGet_foldl_addRulesToBundle p.2 bundles hnd acc b]
            simp [hmem]
          rw [hstep, ih, hfc, hacc]
          by_cases hre : (rest.filter (fun q => decide (b ∈ bundlesOf f2b q.1))).isEmpty
          · have hre' : rest.filter (fun q => decide (b ∈ bundlesOf f2b q.1)) = [] :=
              List.isEmpty_iff.mp hre
            rw [hre']
            simp
          · simp only [hre, if_neg, Bool.false_eq_true, not_false_iff, if_false,
              List.isEmpty_cons, Option.getD_some, List.flatMap_cons, List.append_assoc]
        · have hfc : (p :: rest).filter (fun q => decide (b ∈ bundlesOf f2b q.1)) =
              rest.filter (fun q => decide (b ∈ bundlesOf f2b q.1)) := by
            rw [List.filter_cons]
            simp [hbov, hmem]
          have hacc : jsGet (bundles.foldl (fun a b => addRulesToBundle a b p.2) acc) b
              = jsGet acc b := by
            rw [jsGet_foldl_addRulesToBundle p.2 bundles hnd acc b]
            simp [hmem]
          rw [hstep, ih, hfc, hacc]

/-! ## Helper lemmas about the bundle-membership tracker -/

lemma append_chunk_ne_empty (s : String) : ("chunk-" ++ s) ≠ "" := by
  intro h
  have hl := congrArg String.length h
  rw [String.length_append] at hl
  have h6 : ("chunk-" : String).length = 6 := rfl
  have h0 : ("" : String).length = 0 := rfl
  rw [h6, h0] at hl
  omega

lemma jsOrStr_ne_empty (a : Option String) (b : String) (hb : b ≠ "") :
    jsOrStr a b ≠ "" := by
  cases a with
  | none => simp only [jsOrStr]; exact hb
  | some s =>
      by_cases hs : s = ""
      · simpa [jsOrStr, hs] using hb
      · simp only [jsOrStr, if_neg hs]; exact hs

/-- The derived chunk identifier of line 82 is always truthy: the final
fallback is the template string `chunk-${chunk.renderedHash}`, which starts
with the literal text `chunk-`. -/
lemma chunkNameOf_ne_empty (c : Chunk) : chunkNameOf c ≠ "" :=
  jsOrStr_ne_empty _ _ (jsOrStr_ne_empty _ _ (append_chunk_ne_empty _))

lemma jsGet_trackModule_ne (cn : String) (m : FileToBundles) (mod : WModule)
    (fp : String) (h : mod.resource ≠ some fp) :
    jsGet (trackModule cn m mod) fp = jsGet m fp := by
  unfold trackModule
  cases hres : mod.resource with
  | none => rfl
  | some r =>
      have hr : fp ≠ r := fun he => h (by rw [hres, he])
      by_cases h1 : r = ""
      · simp [h1]
      · by_cases h2 : isNodeModulePath r
        · simp [h1, h2]
        · simp [h1, h2, jsGet_addBundleOnce, hr]

lemma jsGet_foldl_trackModule_ne (cn : String) (mods : List WModule)
    (fp : String) (h : ∀ mod ∈ mods, mod.resource ≠ some fp)
    (m : FileToBundles) :
    jsGet (mods.foldl (trackModule cn) m) fp = jsGet m fp := by
  induction mods generalizing m with
  | nil => rfl
  | cons mo rest ih =>
      rw [List.foldl_cons, ih (fun x hx => h x (List.mem_cons_of_mem _ hx)),
        jsGet_trackModule_ne cn m mo fp (h mo (List.mem_cons_self _ _))]

lemma jsGet_trackChunk_ne (f : Chunk → List WModule) (c : Chunk) (fp : String)
    (h : ∀ mod ∈ f c, mod.resource ≠ some fp) (m : FileToBundles) :
    jsGet (trackChunk f m c) fp = jsGet m fp := by
  unfold trackChunk
  by_cases hc : chunkNameOf c = ""
  · simp [hc]
  · rw [if_neg hc]
    exact jsGet_foldl_trackModule_ne _ _ _ h m

lemma jsGet_foldl_trackChunk_ne (f : Chunk → List WModule)
    (chunks : List Chunk) (fp : String)
    (h : ∀ c ∈ chunks, ∀ mod ∈ f c, mod.resource ≠ some fp)
    (m : FileToBundles) :
    jsGet (chunks.foldl (trackChunk f) m) fp = jsGet m fp := by
  induction chunks generalizing m with
  | nil => rfl
  | cons c rest ih =>
      rw [List.foldl_cons, ih (fun x hx => h x (List.mem_cons_of_mem _ hx)),
        jsGet_trackChunk_ne f c fp (h c (List.mem_cons_self _ _)) m]

lemma jsGet_trackModule_nodeModule (cn : String) (m : FileToBundles)
    (mod : WModule) (fp : String) (hfp : isNodeModulePath fp = true) :
    jsGet (trackModule cn m mod) fp = jsGet m fp := by
  unfold trackModule
  cases mod.resource with
  | none => rfl
  | some r =>
      by_cases h1 : r = ""
      · simp [h1]
      · by_cases h2 : isNodeModulePath r
        · simp [h1, h2]
        · have hr : fp ≠ r := by
            intro he
            rw [he] at hfp
            exact h2 hfp
          simp [h1, h2, jsGet_addBundleOnce, hr]

lemma jsGet_foldl_trackModule_nodeModule (cn : String) (mods : List WModule)
    (fp : String) (hfp : isNodeModulePath fp = true) (m : FileToBundles) :
    jsGet (mods.foldl (trackModule cn) m) fp = jsGet m fp := by
  induction mods generalizing m with
  | nil => rfl
  | cons mo rest ih =>
      rw [List.foldl_cons, ih, jsGet_trackModule_nodeModule cn m mo fp hfp]

lemma jsGet_foldl_trackChunk_nodeModule (f : Chunk → List WModule)
    (chunks : List Chunk) (fp : String) (hfp : isNodeModulePath fp = true)
    (m : FileToBundles) :
    jsGet (chunks.foldl (trackChunk f) m) fp = jsGet m fp := by
  induction chunks generalizing m with
  | nil => rfl
  | cons c rest ih =>
      rw [List.foldl_cons, ih]
      unfold trackChunk
      by_cases hc : chunkNameOf c = ""
      · simp [hc]
      · rw [if_neg hc]
        exact jsGet_foldl_trackModule_nodeModule _ _ _ hfp m

lemma nodup_addBundleOnce (m : FileToBundles) (fp b : String)
    (h : ∀ p ∈ m, (p.2 : List String).Nodup) :
    ∀ p ∈ addBundleOnce m fp b, (p.2 : List String).Nodup := by
  induction m with
  | nil =>
      intro p hp
      simp only [addBundleOnce, List.mem_singleton] at hp
      subst hp
      simp
  | cons q rest ih =>
      obtain ⟨k, v⟩ := q
      intro p hp
      have hv : v.Nodup := h (k, v) (List.mem_cons_self _ _)
      unfold addBundleOnce at hp
      by_cases hk : k = fp
      · rw [if_pos hk] at hp
        rcases List.mem_cons.mp hp with h1 | h2
        · subst h1
          by_cases hb : b ∈ v
          · simpa [hb] using hv
          · simp [hb, List.nodup_append, hv]
        · exact h p (List.mem_cons_of_mem _ h2)
      · rw [if_neg hk] at hp
        rcases List.mem_cons.mp hp with h1 | h2
        · subst h1; exact hv
        · exact ih (fun q hq => h q (List.mem_cons_of_mem _ hq)) p h2

lemma nodup_trackModule (cn : String) (m : FileToBundles) (mod : WModule)
    (h : ∀ p ∈ m, (p.2 : List String).Nodup) :
    ∀ p ∈ trackModule cn m mod, (p.2 : List String).Nodup := by
  unfold trackModule
  cases mod.resource with
  | none => exact h
  | some r =>
      by_cases h1 : r = ""
      · simpa [h1] using h
      · by_cases h2 : isNodeModulePath r
        · simpa [h1, h2] using h
        · simpa [h1, h2] using nodup_addBundleOnce m r cn h

lemma nodup_foldl_trackModule (cn : String) (mods : List WModule)
    (m : FileToBundles) (h : ∀ p ∈ m, (p.2 : List String).Nodup) :
    ∀ p ∈ mods.foldl (trackModule cn) m, (p.2 : List String).Nodup := by
  induction mods generalizing m with
  | nil => exact h
  | cons mo rest ih =>
      rw [List.foldl_cons]
      exact ih _ (nodup_trackModule cn m mo h)

lemma nodup_trackChunk (f : Chunk → List WModule) (m : FileToBundles)
    (c : Chunk) (h : ∀ p ∈ m, (p.2 : List String).Nodup) :
    ∀ p ∈ trackChunk f m c, (p.2 : List String).Nodup := by
  unfold trackChunk
  by_cases hc : chunkNameOf c = ""
  · simpa [hc] using h
  · rw [if_neg hc]
    exact nodup_foldl_trackModule _ _ m h

lemma nodup_foldl_trackChunk (f : Chunk → List WModule) (chunks : List Chunk)
    (m : FileToBundles) (h : ∀ p ∈ m, (p.2 : List String).Nodup) :
    ∀ p ∈ chunks.foldl (trackChunk f) m, (p.2 : List String).Nodup := by
  induction chunks generalizing m with
  | nil => exact h
  | cons c rest ih =>
      rw [List.foldl_cons]
      exact ih _ (nodup_trackChunk f m c h)

lemma mem_bundlesOf_trackModule_mono (cn : String) (m : FileToBundles)
    (mod : WModule) (fp x : String) (h : x ∈ bundlesOf m fp) :
    x ∈ bundlesOf (trackModule cn m mod) fp := by
  unfold trackModule
  cases mod.resource with
  | none => exact h
  | some r =>
      by_cases h1 : r = ""
      · simpa [h1] using h
      · by_cases h2 : isNodeModulePath r
        · simpa [h1, h2] using h
        · simp only [h1, h2, if_neg, Bool.false_eq_true, not_false_iff, if_false]
          exact mem_bundlesOf_addBundleOnce_mono m r cn fp x h

lemma mem_bundlesOf_foldl_trackModule_mono (cn : String) (mods : List WModule)
    (m : FileToBundles) (fp x : String) (h : x ∈ bundlesOf m fp) :
    x ∈ bundlesOf (mods.foldl (trackModule cn) m) fp := by
  induction mods generalizing m with
  | nil => exact h
  | cons mo rest ih =>
      rw [List.foldl_cons]
      exact ih _ (mem_bundlesOf_trackModule_mono cn m mo fp x h)

lemma mem_bundlesOf_trackChunk_mono (f : Chunk → List WModule)
    (m : FileToBundles) (c : Chunk) (fp x : String) (h : x ∈ bundlesOf m fp) :
    x ∈ bundlesOf (trackChunk f m c) fp := by
  unfold trackChunk
  by_cases hc : chunkNameOf c = ""
  · simpa [hc] using h
  · rw [if_neg hc]
    exact mem_bundlesOf_foldl_trackModule_mono _ _ m fp x h

lemma mem_bundlesOf_foldl_trackChunk_mono (f : Chunk → List WModule)
    (chunks : List Chunk) (m : FileToBundles) (fp x : String)
    (h : x ∈ bundlesOf m fp) :
    x ∈ bundlesOf (chunks.foldl (trackChunk f) m) fp := by
  induction chunks generalizing m with
  | nil => exact h
  | cons c rest ih =>
      rw [List.foldl_cons]
      exact ih _ (mem_bundlesOf_trackChunk_mono f m c fp x h)

lemma mem_bundlesOf_trackModule_self (cn : String) (m : FileToBundles)
    (mod : WModule) (fp : String) (hres : mod.resource = some fp)
    (hne : fp ≠ "") (hnm : isNodeModulePath fp = false) :
    cn ∈ bundlesOf (trackModule cn m mod) fp := by
  unfold trackModule
  rw [hres]
  simp only [hne, if_neg, hnm, Bool.false_eq_true, not_false_iff, if_false]
  exact mem_bundlesOf_addBundleOnce_self m fp cn

lemma mem_bundlesOf_run_of_mem (f : Chunk → List WModule)
    (chunks : List Chunk) (c : Chunk) (hc : c ∈ chunks) (mod : WModule)
    (hm : mod ∈ f c) (fp : String) (hres : mod.resource = some fp)
    (hne : fp ≠ "") (hnm : isNodeModulePath fp = false) (m0 : FileToBundles) :
    chunkNameOf c ∈ bundlesOf (chunks.foldl (trackChunk f) m0) fp := by
  obtain ⟨l1, l2, rfl⟩ := List.append_of_mem hc
  rw [List.foldl_append, List.foldl_cons]
  apply mem_bundlesOf_foldl_trackChunk_mono
  unfold trackChunk
  rw [if_neg (chunkNameOf_ne_empty c)]
  obtain ⟨m1, m2, hfc⟩ := List.append_of_mem hm
  rw [hfc, List.foldl_append, List.foldl_cons]
  apply mem_bundlesOf_foldl_trackModule_mono
  exact mem_bundlesOf_trackModule_self _ _ mod fp hres hne hnm

lemma jsGet_map_process (process : List String → Bool → String)
    (useCSSLayers : Bool) (m : List (String × List String)) (k : String) :
    jsGet (m.map (fun p => (p.1, process p.2 useCSSLayers))) k =
      (jsGet m k).map (fun rs => process rs useCSSLayers) := by
  induction m with
  | nil => rfl
  | cons p rest ih =>
      obtain ⟨k', v⟩ := p
      by_cases h : k' = k
      · simp [jsGet, h]
      · simp [jsGet, h, ih]

lemma emitLoop_append_error {ε α : Type}
    (emitOne : String × String → Except ε α) (pre : List (String × String))
    (hpre : ∀ x ∈ pre, ∃ a, emitOne x = Except.ok a) (b : String × String)
    (e : ε) (hb : emitOne b = Except.error e) (post : List (String × String)) :
    emitLoop emitOne (pre ++ b :: post) =
      (pre.filterMap (fun x => (emitOne x).toOption), some e) := by
  induction pre with
  | nil => simp [emitLoop, hb]
  | cons x rest ih =>
      obtain ⟨a, ha⟩ := hpre x (List.mem_cons_self _ _)
      rw [List.cons_append]
      simp only [emitLoop]
      rw [ha, ih (fun y hy => hpre y (List.mem_cons_of_mem _ hy))]
      simp [List.filterMap_cons, ha, Except.toOption]

/-- Claim C1: a file's recorded rules contribute to a bundle's accumulated
rule list (the list handed to `processStylexRules`) exactly when the
`fileToBundlesMap` entry for that file, as it stood when the
bundle-membership tracker last ran, contains that bundle identifier: for
every bundle `b`, the aggregator output at `b` is exactly the concatenation
of the rule sequences of the recorded files whose bundle set contains `b`
(in recording order), and no entry exists when no such file does. In
particular a file absent from `f2b` satisfies the membership test for no
bundle and hence contributes to zero output bundles. -/
theorem getBundleToStylexRules_membership
    (process : List String → Bool → String) (useCSSLayers : Bool)
    (sr : List (String × List String)) (f2b : FileToBundles)
    (hN : ∀ p ∈ f2b, (p.2 : List String).Nodup) (b : String) :
    jsGet ((getBundleToStylexRules process useCSSLayers sr f2b).getD []) b =
      (if (sr.filter (fun p => decide (b ∈ bundlesOf f2b p.1))).isEmpty then
        none
      else
        some (process
          ((sr.filter (fun p => decide (b ∈ bundlesOf f2b p.1))).flatMap
            Prod.snd)
          useCSSLayers)) := by
  unfold getBundleToStylexRules
  by_cases hsr : sr.isEmpty
  · have hnil : sr = [] := List.isEmpty_iff.mp hsr
    subst hnil
    simp [jsGet]
  · rw [if_neg hsr]
    simp only [Option.getD_some]
    rw [jsGet_map_process]
    unfold bundleToRulesOf
    rw [jsGet_foldl_aggregateStep f2b hN sr [] b]
    by_cases hf : (sr.filter (fun p => decide (b ∈ bundlesOf f2b p.1))).isEmpty
    · simp [hf, jsGet]
    · simp [hf, jsGet]

theorem getBundleToStylexRules_membership_witness :
    (∀ p ∈ ([("/proj/a.js", ["main"])] : FileToBundles),
      (p.2 : List String).Nodup)
    ∧ jsGet ((getBundleToStylexRules (fun rs _ => String.join rs) false
          [("/proj/a.js", ["r1"]), ("/gone.js", ["r9"])]
          [("/proj/a.js", ["main"])]).getD []) "main" =
        (if (([("/proj/a.js", ["r1"]), ("/gone.js", ["r9"])] :
              List (String × List String)).filter
            (fun p => decide ("main" ∈
              bundlesOf [("/proj/a.js", ["main"])] p.1))).isEmpty then
          none
        else
          some ((fun (rs : List String) (_ : Bool) => String.join rs)
            ((([("/proj/a.js", ["r1"]), ("/gone.js", ["r9"])] :
                List (String × List String)).filter
              (fun p => decide ("main" ∈
                bundlesOf [("/proj/a.js", ["main"])] p.1))).flatMap Prod.snd)
            false)) :=
  ⟨by decide,
    getBundleToStylexRules_membership (fun rs _ => String.join rs) false
      [("/proj/a.js", ["r1"]), ("/gone.js", ["r9"])]
      [("/proj/a.js", ["main"])] (by decide) "main"⟩

/-- Claim C6: if exactly two recorded files are mapped to a bundle, with rule
sequences `R1` and `R2` in recording order, then that bundle's accumulated
rule list (the `bundleToRules` entry handed to `processStylexRules`) is
`R1 ++ R2`. -/
theorem bundleToRules_two_files (sr : List (String × List String))
    (f2b : FileToBundles) (hN : ∀ p ∈ f2b, (p.2 : List String).Nodup)
    (b f1 f2 : String) (R1 R2 : List String)
    (hfilter : sr.filter (fun p => decide (b ∈ bundlesOf f2b p.1)) =
      [(f1, R1), (f2, R2)]) :
    jsGet (bundleToRulesOf sr f2b) b = some (R1 ++ R2) := by
  unfold bundleToRulesOf
  rw [jsGet_foldl_aggregateStep f2b hN sr [] b, hfilter]
  simp [jsGet]

theorem bundleToRules_two_files_witness :
    (∀ p ∈ ([("/proj/a.js", ["main"]), ("/proj/b.js", ["main"])] :
        FileToBundles), (p.2 : List String).Nodup)
    ∧ ([("/proj/a.js", ["r1", "r2"]), ("/proj/b.js", ["r3"])] :
        List (String × List String)).filter
        (fun p => decide ("main" ∈
          bundlesOf [("/proj/a.js", ["main"]), ("/proj/b.js", ["main"])] p.1)) =
        [("/proj/a.js", ["r1", "r2"]), ("/proj/b.js", ["r3"])]
    ∧ jsGet (bundleToRulesOf
        [("/proj/a.js", ["r1", "r2"]), ("/proj/b.js", ["r3"])]
        [("/proj/a.js", ["main"]), ("/proj/b.js", ["main"])]) "main" =
        some (["r1", "r2"] ++ ["r3"]) :=
  ⟨by decide, by decide,
    bundleToRules_two_files
      [("/proj/a.js", ["r1", "r2"]), ("/proj/b.js", ["r3"])]
      [("/proj/a.js", ["main"]), ("/proj/b.js", ["main"])] (by decide)
      "main" "/proj/a.js" "/proj/b.js" ["r1", "r2"] ["r3"] (by decide)⟩

/-- Claim C2: when none of the configured styling-import names occurs as a
substring of the input text, `transformCode` returns the input unchanged
with no source map, leaves the `stylexRules` map exactly as it was, and in
particular leaves it without an entry for the file's path when it had
none. -/
theorem transformCode_no_import_passthrough
    (stylexImports : List String) (babelrc : Bool) (babel : String → BabelOut)
    (readFile : String) (sr : List (String × List String))
    (inputCode filename : String)
    (h : ∀ importName ∈ stylexImports, jsIncludes inputCode importName = false)
    (h0 : jsGet sr filename = none) :
    transformCode stylexImports babelrc babel readFile sr inputCode filename =
      ({ code := inputCode, map := none }, sr)
    ∧ jsGet (transformCode stylexImports babelrc babel readFile sr inputCode
        filename).2 filename = none := by
  have hany :
      stylexImports.any (fun importName => jsIncludes inputCode importName) =
        false := by
    rw [List.any_eq_false]
    intro x hx
    simp [h x hx]
  have heq :
      transformCode stylexImports babelrc babel readFile sr inputCode filename =
        ({ code := inputCode, map := none }, sr) := by
    unfold transformCode
    rw [hany]
    simp
  exact ⟨heq, by rw [heq]; exact h0⟩

theorem transformCode_no_import_passthrough_witness :
    (∀ importName ∈ ["stylex", "@stylexjs/stylex"],
      jsIncludes "export const plain = 1;" importName = false)
    ∧ jsGet ([] : List (String × List String)) "/proj/plain.js" = none
    ∧ transformCode ["stylex", "@stylexjs/stylex"] false
        (fun s => { code := s, map := none, stylexMeta := none }) ""
        [] "export const plain = 1;" "/proj/plain.js" =
        ({ code := "export const plain = 1;", map := none }, [])
    ∧ jsGet (transformCode ["stylex", "@stylexjs/stylex"] false
        (fun s => { code := s, map := none, stylexMeta := none }) ""
        [] "export const plain = 1;" "/proj/plain.js").2 "/proj/plain.js" =
        none :=
  ⟨by decide, rfl,
    (transformCode_no_import_passthrough ["stylex", "@stylexjs/stylex"] false
      (fun s => { code := s, map := none, stylexMeta := none }) "" []
      "export const plain = 1;" "/proj/plain.js" (by decide) rfl).1,
    (transformCode_no_import_passthrough ["stylex", "@stylexjs/stylex"] false
      (fun s => { code := s, map := none, stylexMeta := none }) "" []
      "export const plain = 1;" "/proj/plain.js" (by decide) rfl).2⟩

/-- Claim C3: after the `afterOptimizeChunks` handler runs over the chunk
list, (a) a path inside a dependency directory (`node_modules` segment)
appears nowhere in the file-to-bundles map, (b) every module of a chunk with
a truthy non-dependency file-path resource has that chunk's identifier in
its file's bundle set, and (c) every bundle set is duplicate-free, so an
identifier is added at most once even when the module is encountered twice
for the same chunk. -/
theorem afterOptimizeChunks_membership (s : PluginState)
    (chunkModules : Chunk → List WModule) (chunks : List Chunk) :
    (∀ fp : String, isNodeModulePath fp = true →
      jsGet (applyAfterOptimizeChunks s chunkModules chunks).fileToBundlesMap
        fp = none)
    ∧ (∀ c ∈ chunks, ∀ mod ∈ chunkModules c, ∀ fp : String,
        mod.resource = some fp → fp ≠ "" → isNodeModulePath fp = false →
        chunkNameOf c ∈ bundlesOf
          (applyAfterOptimizeChunks s chunkModules chunks).fileToBundlesMap fp)
    ∧ (∀ p ∈ (applyAfterOptimizeChunks s chunkModules chunks).fileToBundlesMap,
        (p.2 : List String).Nodup) := by
  refine ⟨?_, ?_, ?_⟩
  · intro fp hfp
    show jsGet (chunks.foldl (trackChunk chunkModules) []) fp = none
    rw [jsGet_foldl_trackChunk_nodeModule chunkModules chunks fp hfp []]
    rfl
  · intro c hc mod hm fp hres hne hnm
    exact mem_bundlesOf_run_of_mem chunkModules chunks c hc mod hm fp hres hne
      hnm []
  · intro p hp
    exact nodup_foldl_trackChunk chunkModules chunks [] (by simp) p hp

theorem afterOptimizeChunks_membership_witness :
    jsGet ((applyAfterOptimizeChunks { stylexRules := [], fileToBundlesMap := [] }
        (fun _ => [{ resource := some "/proj/a.js" },
          { resource := some "/proj/node_modules/dep/i.js" }])
        [{ name := some "main", id := none, renderedHash := none }]).fileToBundlesMap)
      "/proj/node_modules/dep/i.js" = none
    ∧ chunkNameOf { name := some "main", id := none, renderedHash := none } ∈
        bundlesOf ((applyAfterOptimizeChunks
          { stylexRules := [], fileToBundlesMap := [] }
          (fun _ => [{ resource := some "/proj/a.js" },
            { resource := some "/proj/node_modules/dep/i.js" }])
          [{ name := some "main", id := none, renderedHash := none }]).fileToBundlesMap)
          "/proj/a.js" :=
  ⟨(afterOptimizeChunks_membership { stylexRules := [], fileToBundlesMap := [] }
      (fun _ => [{ resource := some "/proj/a.js" },
        { resource := some "/proj/node_modules/dep/i.js" }])
      [{ name := some "main", id := none, renderedHash := none }]).1
      "/proj/node_modules/dep/i.js" (by decide),
    (afterOptimizeChunks_membership { stylexRules := [], fileToBundlesMap := [] }
      (fun _ => [{ resource := some "/proj/a.js" },
        { resource := some "/proj/node_modules/dep/i.js" }])
      [{ name := some "main", id := none, renderedHash := none }]).2.1
      { name := some "main", id := none, renderedHash := none } (by decide)
      { resource := some "/proj/a.js" } (by decide) "/proj/a.js" rfl
      (by decide) (by decide)⟩

/-- Claim C7: each run of the `afterOptimizeChunks` handler fully replaces
the file-to-bundles map with one derived only from the chunks of the current
invocation: a file that is the resource of no module of any current chunk
has no entry afterwards, whatever the previous state recorded. -/
theorem afterOptimizeChunks_full_replacement (s : PluginState)
    (chunkModules : Chunk → List WModule) (chunks : List Chunk) (fp : String)
    (h : ∀ c ∈ chunks, ∀ mod ∈ chunkModules c, mod.resource ≠ some fp) :
    jsGet (applyAfterOptimizeChunks s chunkModules chunks).fileToBundlesMap
      fp = none := by
  show jsGet (chunks.foldl (trackChunk chunkModules) []) fp = none
  rw [jsGet_foldl_trackChunk_ne chunkModules chunks fp h []]
  rfl

theorem afterOptimizeChunks_full_replacement_witness :
    (∀ c ∈ [({ name := some "main", id := none, renderedHash := none } :
        Chunk)],
      ∀ mod ∈ [({ resource := some "/proj/kept.js" } : WModule)],
        mod.resource ≠ some "/proj/gone.js")
    ∧ jsGet ((applyAfterOptimizeChunks
        { stylexRules := [("/proj/gone.js", ["r1"])],
          fileToBundlesMap := [("/proj/gone.js", ["main"])] }
        (fun _ => [{ resource := some "/proj/kept.js" }])
        [{ name := some "main", id := none, renderedHash := none }]).fileToBundlesMap)
        "/proj/gone.js" = none :=
  ⟨by decide,
    afterOptimizeChunks_full_replacement
      { stylexRules := [("/proj/gone.js", ["r1"])],
        fileToBundlesMap := [("/proj/gone.js", ["main"])] }
      (fun _ => [{ resource := some "/proj/kept.js" }])
      [{ name := some "main", id := none, renderedHash := none }]
      "/proj/gone.js" (by decide)⟩

/-- Claim C4 counterexample: the claim says that when a new compilation
starts on the same plugin instance, `stylexRules` holds no entries recorded
during an earlier compilation. On the code this is false: the map is a
class field initialized once at construction (line 21) and the per-
compilation `make` hook body (lines 50–79) never clears it. Concretely, a
transform in compilation #1 records rules for `/proj/a.js`; after a new
compilation starts the entry is still present. -/
theorem stylexRules_persist_counterexample :
    jsGet (startNewCompilation
      { stylexRules := (transformCode ["stylex", "@stylexjs/stylex"] false
          (fun _ =>
            { code := "compiled", map := none, stylexMeta := some ["ruleA"] })
          "" [] "import stylex from stylex;" "/proj/a.js").2,
        fileToBundlesMap := [] }).stylexRules "/proj/a.js" =
      some ["ruleA"] := by
  decide

/-- Claim C4 amended: the file-to-rules map is mutated only by the
transformation step and initialized (empty) once, at plugin-instance
construction; the start of a new compilation on the same instance and the
`afterOptimizeChunks` handler both leave `stylexRules` unchanged, so entries
recorded during earlier compilations persist (stale entries are instead
filtered out at aggregation time via bundle membership). -/
theorem stylexRules_reset_only_at_construction (s : PluginState)
    (chunkModules : Chunk → List WModule) (chunks : List Chunk) :
    initPluginState.stylexRules = []
    ∧ (startNewCompilation s).stylexRules = s.stylexRules
    ∧ (applyAfterOptimizeChunks s chunkModules chunks).stylexRules =
        s.stylexRules :=
  ⟨rfl, rfl, rfl⟩

/-- Claim C5 counterexample: the claim says the emitted asset's filename is
produced from the plugin's configured filename template (default
`[name].stylex.css`). On the code this is false: the constructor stores the
configured template in `this.filename` (line 35) but the emission pass never
reads it — line 190 passes `data.filename`, the literal `${bundle}.stylex.css`,
as the path template. With a custom configured template the template actually
resolved differs from the configured one. -/
theorem emission_ignores_configured_filename :
    specClaimedFilenameTemplate
        (mkPluginConfig none (some "static/custom-[contenthash].css")) =
      some "static/custom-[contenthash].css"
    ∧ (emissionPathArgs
        (mkPluginConfig none (some "static/custom-[contenthash].css"))
        "main" "abc123").1 = "main.stylex.css"
    ∧ some (emissionPathArgs
        (mkPluginConfig none (some "static/custom-[contenthash].css"))
        "main" "abc123").1 ≠
      specClaimedFilenameTemplate
        (mkPluginConfig none (some "static/custom-[contenthash].css")) := by
  refine ⟨rfl, rfl, ?_⟩
  decide

/-- Claim C5 amended: for every bundle with a non-empty processed payload,
the template handed to the bundler's path resolution is the string
`{bundle-id}.stylex.css` itself — the plugin's configured filename template
is stored but not consulted, so the pair is independent of the
configuration — and hash tokens are resolved from the computed content hash
and a synthesized pseudo-chunk whose id is `{bundle-id}.stylex.css`, whose
name is `path.parse` of that filename, and whose hash is the content
hash. -/
theorem emission_template_amended (cfg cfg' : PluginConfig)
    (bundle contentHash : String) :
    emissionPathArgs cfg bundle contentHash =
      (bundle ++ ".stylex.css",
        { filename := bundle ++ ".stylex.css",
          contentHash := contentHash,
          chunk :=
            { id := bundle ++ ".stylex.css",
              name := parseName (bundle ++ ".stylex.css"),
              hash := contentHash } })
    ∧ emissionPathArgs cfg bundle contentHash =
        emissionPathArgs cfg' bundle contentHash :=
  ⟨rfl, rfl⟩

/-- Claim C8: any exception raised inside one emission pass is caught by the
single boundary around the whole pass and appended (as exactly one new
entry) to the compilation's error list instead of propagating; assets
emitted for bundles iterated before the exception remain emitted, and the
result does not depend on the bundles after the failing one, which are
never processed. -/
theorem processAssets_error_boundary {ε α : Type}
    (emitOne : String × String → Except ε α) (errors : List ε)
    (pre post : List (String × String)) (b : String × String) (e : ε)
    (hpre : ∀ x ∈ pre, ∃ a, emitOne x = Except.ok a)
    (hb : emitOne b = Except.error e) :
    processAssetsHandler (some (pre ++ b :: post)) emitOne errors =
      (pre.filterMap (fun x => (emitOne x).toOption), errors ++ [e]) := by
  have h1 : emitLoop emitOne (pre ++ b :: post) =
      (pre.filterMap (fun x => (emitOne x).toOption), some e) :=
    emitLoop_append_error emitOne pre hpre b e hb post
  simp [processAssetsHandler, h1]

theorem processAssets_error_boundary_witness :
    ((fun p : String × String =>
        if p.1 = "bad" then (Except.error "hash failed" : Except String String)
        else Except.ok (p.1 ++ ".stylex.css")) ("bad", "cssB") =
      Except.error "hash failed")
    ∧ processAssetsHandler
        (some ([("main", "cssA")] ++ ("bad", "cssB") :: [("other", "cssC")]))
        (fun p : String × String =>
          if p.1 = "bad" then (Except.error "hash failed" : Except String String)
          else Except.ok (p.1 ++ ".stylex.css")) [] =
        ([("main", "cssA")].filterMap
          (fun x => ((fun p : String × String =>
            if p.1 = "bad" then
              (Except.error "hash failed" : Except String String)
            else Except.ok (p.1 ++ ".stylex.css")) x).toOption),
          [] ++ ["hash failed"]) :=
  ⟨rfl,
    processAssets_error_boundary
      (fun p : String × String =>
        if p.1 = "bad" then (Except.error "hash failed" : Except String String)
        else Except.ok (p.1 ++ ".stylex.css"))
      [] [("main", "cssA")] [("other", "cssC")] ("bad", "cssB") "hash failed"
      (fun x hx => by
        rw [List.mem_singleton] at hx
        subst hx
        exact ⟨"main.stylex.css", rfl⟩)
      rfl⟩

/-- Claim C9: the content hash is deterministic — two emission runs with the
same hash oracle, identical hash configuration (function, salt, digest
encoding, truncation length) and identical payload produce the identical
content hash, and hence, for any path resolver, the identical resolved
asset filename from the identical synthesized asset descriptor. -/
theorem getContentHash_deterministic
    (createHashDigest : String → List String → String → String)
    (o1 o2 : OutputOptions) (s1 s2 : String)
    (hf : o1.hashFunction = o2.hashFunction)
    (hd : o1.hashDigest = o2.hashDigest)
    (hl : o1.hashDigestLength = o2.hashDigestLength)
    (hs : o1.hashSalt = o2.hashSalt) (hsrc : s1 = s2) :
    getContentHash createHashDigest o1 s1 =
      getContentHash createHashDigest o2 s2
    ∧ ∀ (resolvePath : String → AssetData → String) (bundle : String),
        resolvePath
          (mkAssetData bundle (getContentHash createHashDigest o1 s1)).filename
          (mkAssetData bundle (getContentHash createHashDigest o1 s1)) =
        resolvePath
          (mkAssetData bundle (getContentHash createHashDigest o2 s2)).filename
          (mkAssetData bundle (getContentHash createHashDigest o2 s2)) := by
  have ho : o1 = o2 := by
    obtain ⟨f1, d1, l1, sa1⟩ := o1
    obtain ⟨f2, d2, l2, sa2⟩ := o2
    simp only at hf hd hl hs
    rw [hf, hd, hl, hs]
  subst ho
  subst hsrc
  exact ⟨rfl, fun _ _ => rfl⟩

theorem getContentHash_deterministic_witness :
    (("sha256" : String) = "sha256" ∧ ("hex" : String) = "hex"
      ∧ (some 8 : Option Nat) = some 8
      ∧ (none : Option String) = none ∧ ("payload" : String) = "payload")
    ∧ getContentHash (fun f us d => f ++ String.join us ++ d)
        { hashFunction := "sha256", hashDigest := "hex",
          hashDigestLength := some 8, hashSalt := none } "payload" =
      getContentHash (fun f us d => f ++ String.join us ++ d)
        { hashFunction := "sha256", hashDigest := "hex",
          hashDigestLength := some 8, hashSalt := none } "payload" :=
  ⟨⟨rfl, rfl, rfl, rfl, rfl⟩,
    (getContentHash_deterministic (fun f us d => f ++ String.join us ++ d)
      { hashFunction := "sha256", hashDigest := "hex",
        hashDigestLength := some 8, hashSalt := none }
      { hashFunction := "sha256", hashDigest := "hex",
        hashDigestLength := some 8, hashSalt := none }
      "payload" "payload" rfl rfl rfl rfl rfl).1⟩

/-- Claim C10: the derived chunk identifier of line 82 is always a truthy
(non-empty) string because the final fallback is the template string
`chunk-${chunk.renderedHash}`, so the guard on line 83 that would skip a
chunk with no derivable identifier never fires; a chunk whose `name`, `id`
and `renderedHash` are all absent is recorded under the identifier
`chunk-undefined` rather than skipped. -/
theorem chunkName_fallback_truthy :
    (∀ c : Chunk, chunkNameOf c ≠ "")
    ∧ chunkNameOf { name := none, id := none, renderedHash := none } =
        "chunk-undefined"
    ∧ bundlesOf ((applyAfterOptimizeChunks initPluginState
        (fun _ => [{ resource := some "/proj/a.js" }])
        [{ name := none, id := none, renderedHash := none }]).fileToBundlesMap)
        "/proj/a.js" = ["chunk-undefined"] :=
  ⟨chunkNameOf_ne_empty, by decide, by decide⟩

theorem chunkName_fallback_truthy_witness :
    chunkNameOf { name := none, id := none, renderedHash := none } ≠ "" :=
  chunkName_fallback_truthy.1 { name := none, id := none, renderedHash := none }
